import Mathlib

/-!
Verification development for the HTE_Anon_Tokyo repository.

The development shallowly embeds the Python sources:
  * `src/watermark_llamacpp/statistical.py` (keyed greenlist hash, dense and
    sparse statistical scoring),
  * `src/watermark_llamacpp/detector.py` (status classification),
  * `src/watermark_llamacpp/policy.py` (opt-out token make/verify),
  * `minimax-webui/registry/chain.py` (simulated hash chain),
  * `minimax-webui/registry/auth.py` with `db.py` (signature verification
    against the company table).

Modelling conventions:
  * Python `int` is `ℕ`/`ℤ` (Python integers are unbounded); `bytes` is
    `List ℕ` with each element `< 256`; `str` is `String`, or `List Char`
    where character-level reasoning is needed.
  * Python `float` is IEEE-754 binary64.  Where float rounding is observable
    through integer results (`int(ratio * MASK)`), we model the float value
    of an expression as an exact rational and the binary64 rounding step
    explicitly (`Fp.rnd53` below: round to nearest, ties to even, 53-bit
    significand; overflow and subnormal underflow are not modelled, which is
    exact for every quantity reachable in this code).  Where floats only feed
    the final real-valued statistics (`expected`, `z`, `p`), real arithmetic
    idealises the float arithmetic, as the specification itself does.
  * Library primitives (SHA-256, HMAC, `json.dumps`/`json.loads`,
    `str.lower`) are uninterpreted function parameters; everything the claims
    depend on structurally is defined concretely.
  * Fallible operations return `Option`; an uncaught Python exception is an
    `Except.error`.
-/

/-! ## A computable model of IEEE-754 binary64 rounding on exact rationals -/

namespace Fp

/-- Fuel-driven base-2 logarithm on `ℕ` (structural recursion so that the
kernel can evaluate it on literals). `log2_fuel fuel n` is the floor of
`log₂ n` provided `n ≤ fuel` and `1 ≤ n`. -/
def log2_fuel : ℕ → ℕ → ℕ
  | 0, _ => 0
  | fuel + 1, n => if n ≤ 1 then 0 else log2_fuel fuel (n / 2) + 1

/-- Floor of `log₂ n` for `1 ≤ n`. -/
def nlog2 (n : ℕ) : ℕ := log2_fuel n n

/-- `2^e` in `ℚ` for an integer exponent, via `ℕ` powers (computable and
kernel-reducible). -/
def pow2z (e : ℤ) : ℚ := if 0 ≤ e then ((2 ^ e.toNat : ℕ) : ℚ) else ((2 ^ (-e).toNat : ℕ) : ℚ)⁻¹

/-- Floor of `log₂ q` for a positive rational `q`. -/
def floorLog2Q (q : ℚ) : ℤ :=
  if pow2z ((nlog2 q.num.natAbs : ℤ) - (nlog2 q.den : ℤ)) ≤ q then
    (nlog2 q.num.natAbs : ℤ) - (nlog2 q.den : ℤ)
  else
    (nlog2 q.num.natAbs : ℤ) - (nlog2 q.den : ℤ) - 1

/-- Round a rational to an integer: nearest, ties to even. -/
def round_half_even (s : ℚ) : ℤ :=
  if s - ⌊s⌋ < 1 / 2 then ⌊s⌋
  else if 1 / 2 < s - ⌊s⌋ then ⌊s⌋ + 1
  else if 2 ∣ ⌊s⌋ then ⌊s⌋ else ⌊s⌋ + 1

/-- Round a positive rational to the nearest IEEE-754 binary64 value
(53 significant bits), ignoring overflow and subnormal underflow. -/
def rnd53pos (q : ℚ) : ℚ :=
  (round_half_even (q * pow2z (52 - floorLog2Q q)) : ℚ) * pow2z (floorLog2Q q - 52)

/-- Round a rational to the nearest IEEE-754 binary64 value (round to
nearest, ties to even), ignoring overflow and subnormal underflow. -/
def rnd53 (q : ℚ) : ℚ :=
  if q = 0 then 0 else if q < 0 then -(rnd53pos (-q)) else rnd53pos q

/-- Python `int(x)` on a float value: truncation toward zero. -/
def pyTrunc (q : ℚ) : ℤ := if 0 ≤ q then ⌊q⌋ else ⌈q⌉

/-- The binary64 value of a Python `int` converted to `float`. -/
def pyFloat (n : ℕ) : ℚ := rnd53 (n : ℚ)

/-- Binary64 multiplication: exact product, then one rounding. -/
def pyMul (a b : ℚ) : ℚ := rnd53 (a * b)

end Fp

/-! ## `statistical.py`: keyed greenlist hash and scoring -/

namespace Statistical

/-- `_MASK63 = (1 << 63) - 1` -/
def MASK63 : ℕ := 2 ^ 63 - 1

/-- `_A = 2862933555777941757` -/
def A : ℕ := 2862933555777941757

/-- `_B = 3037000493` -/
def B : ℕ := 3037000493

/-- `_mix63(x) = (_A * (x & _MASK63) + _B) & _MASK63` -/
def mix63 (x : ℕ) : ℕ := (A * (x &&& MASK63) + B) &&& MASK63

/-- `token_is_green(token_id, seed, greenlist_ratio)`:
`threshold = int(greenlist_ratio * _MASK63)` — a float computation, so the
`int` `_MASK63` is first converted to binary64 and the product is rounded —
then `_mix63(token_id ^ (seed & _MASK63)) < threshold` as an integer
comparison.  `greenlist_ratio` is the exact rational value of the Python
float argument. -/
def token_is_green (token_id seed : ℕ) (greenlist_ratio : ℚ) : Bool :=
  decide ((mix63 (token_id ^^^ (seed &&& MASK63)) : ℤ) <
    Fp.pyTrunc (Fp.pyMul greenlist_ratio (Fp.pyFloat MASK63)))

/-- The greenness predicate as the specification words it: strict comparison
against the exact mathematical floor of `ratio * (2^63 - 1)`.
Modelled from the spec for comparison with `token_is_green`. -/
def spec_token_is_green (token_id seed : ℕ) (greenlist_ratio : ℚ) : Prop :=
  (mix63 (token_id ^^^ (seed &&& MASK63)) : ℤ) < ⌊greenlist_ratio * ((2 : ℚ) ^ 63 - 1)⌋

instance (token_id seed : ℕ) (r : ℚ) : Decidable (spec_token_is_green token_id seed r) := by
  unfold spec_token_is_green; infer_instance

/-- The sort key used by `select_sparse_green_ids`: `_mix63(tid ^ (seed & _MASK63))`. -/
def sparse_key (seed tid : ℕ) : ℕ := mix63 (tid ^^^ (seed &&& MASK63))

/-- `k = max(1, min(int(vocab_size * greenlist_ratio), max_bias_tokens, vocab_size))`
as computed by `select_sparse_green_ids` and `score_sparse_watermark`.
`int(vocab_size * greenlist_ratio)` converts `vocab_size` to binary64,
multiplies in binary64 and truncates. -/
def sparse_k (vocab_size : ℕ) (greenlist_ratio : ℚ) (max_bias_tokens : ℕ) : ℕ :=
  (max 1 (min (min (Fp.pyTrunc (Fp.pyMul (Fp.pyFloat vocab_size) greenlist_ratio))
    (max_bias_tokens : ℤ)) (vocab_size : ℤ))).toNat

/-- The `k` of the claim, with the exact mathematical floor of
`vocab_size * ratio` in place of the float computation.
Modelled from the spec for comparison with `sparse_k`. -/
def spec_sparse_k (vocab_size : ℕ) (greenlist_ratio : ℚ) (max_bias_tokens : ℕ) : ℕ :=
  (max 1 (min (min ⌊(vocab_size : ℚ) * greenlist_ratio⌋
    (max_bias_tokens : ℤ)) (vocab_size : ℤ))).toNat

/-- `select_sparse_green_ids(vocab_size, seed, greenlist_ratio, max_bias_tokens)`:
empty for `vocab_size <= 0`, else `heapq.nsmallest(k, range(vocab_size), key)`.
`nsmallest` is documented equivalent to `sorted(iterable, key=key)[:k]`, and
Python's `sorted` is a stable sort, modelled by `List.insertionSort` with the
non-strict key order. -/
def select_sparse_green_ids (vocab_size seed : ℕ) (greenlist_ratio : ℚ)
    (max_bias_tokens : ℕ) : List ℕ :=
  if vocab_size = 0 then []
  else
    (List.insertionSort (fun a b => sparse_key seed a ≤ sparse_key seed b)
      (List.range vocab_size)).take (sparse_k vocab_size greenlist_ratio max_bias_tokens)

/-- `StatisticalScore` with the three float fields idealised as reals. -/
structure StatisticalScore where
  total_scored : ℕ
  green_hits : ℕ
  expected : ℝ
  z_score : ℝ
  p_value_one_sided : ℝ

open scoped Classical in
/-- `StatisticalWatermarkDetector.score(token_ids, derived_key)`.
`seedOf` abstracts `derive_context_seed(derived_key, ·)` (an HMAC-SHA256
library computation) and `erfc` abstracts `math.erfc`.  The loop over
`idx ∈ [context_width, len(token_ids))` accumulates `hits` and `n`;
`token_ids[idx - context_width : idx]` is `(drop (idx - cw)).take cw`. -/
noncomputable def score (context_width : ℕ) (greenlist_ratio : ℚ)
    (seedOf : List ℕ → ℕ) (erfc : ℝ → ℝ) (token_ids : List ℕ) : StatisticalScore :=
  if token_ids.length ≤ context_width then ⟨0, 0, 0, 0, 1⟩
  else
    let idxs := List.range' context_width (token_ids.length - context_width)
    let hits := (idxs.filter fun idx =>
      token_is_green (token_ids.getD idx 0)
        (seedOf ((token_ids.drop (idx - context_width)).take context_width))
        greenlist_ratio).length
    let n := idxs.length
    let expected : ℝ := n * (greenlist_ratio : ℝ)
    let v : ℝ := n * (greenlist_ratio : ℝ) * (1 - (greenlist_ratio : ℝ))
    let z : ℝ := if v ≤ 0 then 0 else ((hits : ℝ) - expected) / Real.sqrt v
    ⟨n, hits, expected, z, 1 / 2 * erfc (z / Real.sqrt 2)⟩

open scoped Classical in
/-- `score_sparse_watermark(token_ids, derived_key, vocab_size, context_width,
greenlist_ratio, max_bias_tokens)`: like `score` but a hit is membership of
`token_ids[idx]` in `select_sparse_green_ids(...)` for the per-position seed,
and `p_green = k / vocab_size`. -/
noncomputable def score_sparse_watermark (token_ids : List ℕ) (seedOf : List ℕ → ℕ)
    (erfc : ℝ → ℝ) (vocab_size context_width : ℕ) (greenlist_ratio : ℚ)
    (max_bias_tokens : ℕ) : StatisticalScore :=
  if token_ids.length ≤ context_width then ⟨0, 0, 0, 0, 1⟩
  else
    let k := sparse_k vocab_size greenlist_ratio max_bias_tokens
    let p_green : ℚ := (k : ℚ) / (vocab_size : ℚ)
    let idxs := List.range' context_width (token_ids.length - context_width)
    let hits := (idxs.filter fun idx =>
      (select_sparse_green_ids vocab_size
        (seedOf ((token_ids.drop (idx - context_width)).take context_width))
        greenlist_ratio max_bias_tokens).contains (token_ids.getD idx 0)).length
    let n := idxs.length
    let expected : ℝ := n * (p_green : ℝ)
    let v : ℝ := n * (p_green : ℝ) * (1 - (p_green : ℝ))
    let z : ℝ := if v ≤ 0 then 0 else ((hits : ℝ) - expected) / Real.sqrt v
    ⟨n, hits, expected, z, 1 / 2 * erfc (z / Real.sqrt 2)⟩

/-- Claim-side green-hit count for the dense scorer: one scored position for
each `t ∈ [context_width, len(tokens))`, a hit when `tokens[t]` is green
under the seed derived from the preceding `context_width` tokens. -/
def dense_hits_spec (context_width : ℕ) (greenlist_ratio : ℚ)
    (seedOf : List ℕ → ℕ) (token_ids : List ℕ) : ℕ :=
  ((Finset.Ico context_width token_ids.length).filter fun t =>
    token_is_green (token_ids.getD t 0)
      (seedOf ((token_ids.drop (t - context_width)).take context_width))
      greenlist_ratio = true).card

/-- Claim-side green-hit count for the sparse scorer: a hit when `tokens[t]`
is in the sparse greenlist for the per-position seed. -/
def sparse_hits_spec (vocab_size context_width : ℕ) (greenlist_ratio : ℚ)
    (max_bias_tokens : ℕ) (seedOf : List ℕ → ℕ) (token_ids : List ℕ) : ℕ :=
  ((Finset.Ico context_width token_ids.length).filter fun t =>
    (select_sparse_green_ids vocab_size
      (seedOf ((token_ids.drop (t - context_width)).take context_width))
      greenlist_ratio max_bias_tokens).contains (token_ids.getD t 0) = true).card

end Statistical

/-! ## `detector.py` and `config.py`: status classification -/

namespace Detector

/-- `StatisticalConfig.z_threshold_verified = 4.0` -/
noncomputable def z_threshold_verified : ℝ := 4

/-- `StatisticalConfig.z_threshold_likely = 2.5` -/
noncomputable def z_threshold_likely : ℝ := 5 / 2

open scoped Classical in
/-- The status computation at the end of `WatermarkDetector.verify`
(detector.py lines 131-138): `status = "none"`; `"verified"` if a CRC-valid
payload was recovered; otherwise, if a statistical score was computed,
compare its best z-score against the configured thresholds.  `payload` is the
recovered payload (if any) and `stat_score` the computed score (if any). -/
noncomputable def verify_status {α : Type} (payload : Option α)
    (stat_score : Option Statistical.StatisticalScore)
    (thr_verified thr_likely : ℝ) : String :=
  match payload with
  | some _ => "verified"
  | none =>
    match stat_score with
    | some s =>
      if thr_verified ≤ s.z_score then "verified"
      else if thr_likely ≤ s.z_score then "likely"
      else "none"
    | none => "none"

end Detector

/-! ## `registry/chain.py`: simulated hash chain -/

namespace Chain

/-- `GENESIS_PREV_HASH = "0" * 64` -/
def GENESIS_PREV_HASH : String := String.mk (List.replicate 64 '0')

/-- A row of the `chain_blocks` table (= `ChainRecord`). -/
structure ChainBlock where
  block_num : ℕ
  prev_hash : String
  tx_hash : String
  data_hash : String
  issuer_id : ℕ
  signature_hex : String
  timestamp : String

/-- The arguments of one `anchor` call, together with the two timestamp
strings the program reads during that call: `timestamp` is
`ts = datetime.now(timezone.utc).isoformat()`, the string hashed into
`tx_hash` and returned in the `ChainReceipt`; `db_timestamp` is the value
SQLite's `DEFAULT (datetime('now'))` fills into the stored row's `timestamp`
column, because `db.insert_block` omits that column entirely.  The two are
different strings even at the same instant (`"…T…+00:00"` isoformat versus
`"YYYY-MM-DD HH:MM:SS"`). -/
structure AnchorCall where
  data_hash : String
  issuer_id : ℕ
  signature_hex : String
  timestamp : String
  db_timestamp : String

variable (sha256_hex : String → String)

/-- `SimulatedChain.anchor`: read the latest block (highest `block_num`,
i.e. the last of the list), compute
`tx_hash = sha256(f"{prev_hash}{data_hash}{issuer_id}{ts}")` and insert a
new block.  `sha256_hex` abstracts `hashlib.sha256(...).hexdigest()`;
`toString issuer_id` is the decimal rendering of the integer, as in the
f-string.  The stored row's `timestamp` field is *not* `ts`: `insert_block`
does not pass a timestamp, so the row keeps the SQLite default
`datetime('now')`, modelled as the call's `db_timestamp` input. -/
def anchor (blocks : List ChainBlock) (call : AnchorCall) : List ChainBlock :=
  let prev_hash := match blocks.getLast? with
    | some latest => latest.tx_hash
    | none => GENESIS_PREV_HASH
  let tx_hash := sha256_hex (prev_hash ++ call.data_hash ++ toString call.issuer_id
    ++ call.timestamp)
  blocks ++ [{ block_num := blocks.length + 1, prev_hash := prev_hash, tx_hash := tx_hash,
               data_hash := call.data_hash, issuer_id := call.issuer_id,
               signature_hex := call.signature_hex, timestamp := call.db_timestamp }]

/-- The chain produced by a sequence of `anchor` calls starting from an empty
`chain_blocks` table. -/
def anchor_all (calls : List AnchorCall) : List ChainBlock :=
  calls.foldl (anchor sha256_hex) []

/-- The loop of `validate_chain`: check each block's `prev_hash` against the
previous block's `tx_hash`, reporting the first mismatch. -/
def check_links : ChainBlock → List ChainBlock → Option String
  | _, [] => none
  | prev, b :: rest =>
    if b.prev_hash ≠ prev.tx_hash then
      some ("block " ++ toString b.block_num ++ ": prev_hash mismatch (expected "
        ++ prev.tx_hash ++ ", got " ++ b.prev_hash ++ ")")
    else check_links b rest

/-- `SimulatedChain.validate_chain`: blocks in `block_num` order; `(true, …)`
for the empty chain; the first block must point at genesis; then the linkage
walk. -/
def validate_chain (blocks : List ChainBlock) : Bool × String :=
  match blocks with
  | [] => (true, "empty chain")
  | b0 :: rest =>
    if b0.prev_hash ≠ GENESIS_PREV_HASH then
      (false, "block " ++ toString b0.block_num ++ ": invalid genesis prev_hash")
    else
      match check_links b0 rest with
      | some msg => (false, msg)
      | none => (true, "valid chain with " ++ toString (b0 :: rest).length ++ " blocks")

/-- The linkage relation between consecutive blocks. -/
def LinkRel (a b : ChainBlock) : Prop := b.prev_hash = a.tx_hash

/-- The part of the chain invariant the stored data does satisfy: the first
block points at genesis and consecutive blocks are linked.  (The claim's
further conjunct — `tx_hash = SHA-256(prev_hash ∥ data_hash ∥
decimal(issuer_id) ∥ timestamp)` over the *stored* `timestamp` field — fails,
since the stored field is the SQLite default, not the hashed `ts`.) -/
def ChainInv (blocks : List ChainBlock) : Prop :=
  (∀ b0 ∈ blocks.head?, b0.prev_hash = GENESIS_PREV_HASH) ∧
  List.Chain' LinkRel blocks

end Chain

/-! ## `registry/auth.py` with `registry/db.py`: lookup by recovered address -/

namespace Registry

/-- A row of the `companies` table. -/
structure Company where
  issuer_id : ℕ
  name : String
  eth_address : String
  active : Bool

/-- `VerifiedSigner` as returned by the verification functions. -/
structure VerifiedSigner where
  issuer_id : ℕ
  name : String
  eth_address : String

/-- `db.get_company_by_address`:
`SELECT * FROM companies WHERE eth_address = ? AND active = 1`. -/
def get_company_by_address (companies : List Company) (eth_address : String) :
    Option Company :=
  companies.find? fun c => c.eth_address == eth_address && c.active

variable (str_lower : String → String)

/-- `auth.verify_signature_by_address`, given the list of `companies` rows
(in `id` order, as `db.list_companies` returns them — note its SQL has no
`active` filter) and the outcome of `recover_signer` (`none` when recovery
raised).  `str_lower` abstracts Python's `str.lower`. -/
def verify_signature_by_address (companies : List Company)
    (recovered_address : Option String) : Option VerifiedSigner :=
  match recovered_address with
  | none => none
  | some addr =>
    match get_company_by_address companies addr with
    | some c => some ⟨c.issuer_id, c.name, c.eth_address⟩
    | none =>
      match companies.find? (fun c => str_lower c.eth_address == str_lower addr) with
      | some c => some ⟨c.issuer_id, c.name, c.eth_address⟩
      | none => none

end Registry

/-! ## `policy.py`: opt-out tokens -/

namespace Policy

/-- The URL-safe base64 alphabet (`base64.urlsafe_b64encode`). -/
def b64_alphabet : List Char :=
  "ABCDEFGHIJKLMNOPQRSTUVWXYZabcdefghijklmnopqrstuvwxyz0123456789-_".toList

/-- The alphabet character for a 6-bit value. -/
def b64_char (v : ℕ) : Char := b64_alphabet.getD v 'A'

/-- The 6-bit value of an alphabet character (`none` off-alphabet). -/
def b64_val (c : Char) : Option ℕ := b64_alphabet.findIdx? fun x => x == c

/-- `_b64url_encode(data)`: `base64.urlsafe_b64encode` with the `=` padding
stripped.  Three input bytes yield four characters; a final chunk of one or
two bytes yields two or three characters. -/
def b64url_encode : List ℕ → List Char
  | [] => []
  | [b1] => b64_char (b1 / 4) :: b64_char (b1 % 4 * 16) :: []
  | [b1, b2] => b64_char (b1 / 4) :: b64_char (b1 % 4 * 16 + b2 / 16) ::
      b64_char (b2 % 16 * 4) :: []
  | b1 :: b2 :: b3 :: rest =>
      b64_char (b1 / 4) :: b64_char (b1 % 4 * 16 + b2 / 16) ::
      b64_char (b2 % 16 * 4 + b3 / 64) :: b64_char (b3 % 64) :: b64url_encode rest

/-- `_b64url_decode(data)`: re-pad to a multiple of four and
`base64.urlsafe_b64decode`.  A length of `1 (mod 4)` is undecodable (Python
raises `binascii.Error`, caught by the caller).  This model rejects
off-alphabet characters where CPython's default decoder discards them; both
behaviours make every affected `verify` input fail with some reason, which is
all the claims depend on. -/
def b64url_decode : List Char → Option (List ℕ)
  | [] => some []
  | [c1, c2] => do
      let v1 ← b64_val c1
      let v2 ← b64_val c2
      pure ((v1 * 4 + v2 / 16) :: [])
  | [c1, c2, c3] => do
      let v1 ← b64_val c1
      let v2 ← b64_val c2
      let v3 ← b64_val c3
      pure ((v1 * 4 + v2 / 16) :: (v2 % 16 * 16 + v3 / 4) :: [])
  | c1 :: c2 :: c3 :: c4 :: rest => do
      let v1 ← b64_val c1
      let v2 ← b64_val c2
      let v3 ← b64_val c3
      let v4 ← b64_val c4
      let tail ← b64url_decode rest
      pure ((v1 * 4 + v2 / 16) :: (v2 % 16 * 16 + v3 / 4) :: (v3 % 4 * 64 + v4) :: tail)
  | _ => none

/-- `token.split(".", 1)` followed by unpacking into exactly two parts:
succeeds with the text before and after the first `'.'`, fails
(`ValueError`, caught as "malformed token") when there is no `'.'`. -/
def split_dot : List Char → Option (List Char × List Char)
  | [] => none
  | c :: rest =>
    if c = '.' then some ([], rest)
    else
      match split_dot rest with
      | some (pre, post) => some (c :: pre, post)
      | none => none

/-- JSON values as relevant to the opt-out payload.  Numbers are modelled as
integers (the payloads the policy code writes carry only integers). -/
inductive JsonVal where
  | null
  | bool (b : Bool)
  | num (n : ℤ)
  | str (s : List Char)
  | arr (elems : List JsonVal)
  | obj (fields : List (List Char × JsonVal))

/-- One step of `int(str)`: a decimal digit's value. -/
def digit_val (c : Char) : Option ℕ :=
  if '0' ≤ c ∧ c ≤ '9' then some (c.toNat - '0'.toNat) else none

/-- `int(s)` on a decimal digit string (no sign): `none` when any character
is not a digit or the string is empty. -/
def digits_to_nat (cs : List Char) : Option ℕ :=
  cs.foldl
    (fun acc c =>
      match acc, digit_val c with
      | some a, some d => some (a * 10 + d)
      | _, _ => none)
    (if cs.isEmpty then none else some 0)

/-- Python `int(x)` applied to a JSON-decoded value: integers and booleans
coerce, decimal strings (optionally signed) parse, everything else raises
`TypeError`/`ValueError` (`none`).  Surrounding whitespace and underscore
separators are not modelled. -/
def py_int : JsonVal → Option ℤ
  | .num n => some n
  | .bool b => some (if b then 1 else 0)
  | .str ('-' :: cs) => (digits_to_nat cs).map fun n => -(n : ℤ)
  | .str ('+' :: cs) => (digits_to_nat cs).map fun n => (n : ℤ)
  | .str cs => (digits_to_nat cs).map fun n => (n : ℤ)
  | _ => none

/-- The `"iat"` key. -/
def iat_key : List Char := 'i' :: 'a' :: 't' :: []

/-- The `"exp"` key. -/
def exp_key : List Char := 'e' :: 'x' :: 'p' :: []

/-- `dict.setdefault(k, v)` on an insertion-ordered dict modelled as an
association list. -/
def setdefault (fields : List (List Char × JsonVal)) (k : List Char) (v : JsonVal) :
    List (List Char × JsonVal) :=
  match fields.lookup k with
  | some _ => fields
  | none => fields ++ [(k, v)]

/-- The body dict built by `make_opt_out_token`:
`body = dict(payload); body.setdefault("iat", now); body.setdefault("exp", now + ttl)`.
The two `int(time.time())` reads are modelled as the same instant `now`. -/
def opt_out_body (payload : List (List Char × JsonVal)) (now ttl_seconds : ℕ) :
    List (List Char × JsonVal) :=
  setdefault (setdefault payload iat_key (.num now)) exp_key (.num (now + ttl_seconds))

/-- `make_opt_out_token(payload, secret, ttl_seconds)` at clock instant `now`.
`hmac_sha256 key msg` abstracts `hmac.new(key, msg, sha256).digest()`;
`json_dumps_canonical` abstracts
`json.dumps(body, separators=(",", ":"), sort_keys=True).encode()`. -/
def make_opt_out_token (hmac_sha256 : List ℕ → List ℕ → List ℕ)
    (json_dumps_canonical : List (List Char × JsonVal) → List ℕ)
    (payload : List (List Char × JsonVal)) (secret : List ℕ)
    (ttl_seconds now : ℕ) : List Char :=
  let raw := json_dumps_canonical (opt_out_body payload now ttl_seconds)
  b64url_encode raw ++ '.' :: b64url_encode (hmac_sha256 secret raw)

/-- The tail of `verify_opt_out_token` after a successful signature check and
JSON parse: `exp = int(parsed.get("exp", 0)); exp < now → expired`.  This
region is outside every `try`: `parsed.get` on a non-dict raises
`AttributeError`, and `int(...)` on a non-coercible value raises — modelled
as `Except.error`. -/
def verify_parsed (parsed : JsonVal) (now : ℕ) : Except String (Bool × String) :=
  match parsed with
  | .obj fields =>
    match py_int ((fields.lookup exp_key).getD (.num 0)) with
    | none => .error "TypeError: int() argument is not coercible"
    | some e => if e < (now : ℤ) then .ok (false, "expired token") else .ok (true, "ok")
  | _ => .error "AttributeError: object has no attribute get"

/-- `verify_opt_out_token(token, secret)` at clock instant `now`.
`json_loads` abstracts `json.loads` (`none` on a parse error).  A `none`
token or an empty string is falsy (`if not token`).  The split/decode block
and the `json.loads` call sit inside `try`; the final `exp` extraction does
not (see `verify_parsed`). -/
def verify_opt_out_token (hmac_sha256 : List ℕ → List ℕ → List ℕ)
    (json_loads : List ℕ → Option JsonVal)
    (token : Option (List Char)) (secret : List ℕ) (now : ℕ) :
    Except String (Bool × String) :=
  match token with
  | none => .ok (false, "missing opt_out_token")
  | some t =>
    if t = [] then .ok (false, "missing opt_out_token")
    else
      match split_dot t with
      | none => .ok (false, "malformed token")
      | some (enc_payload, enc_sig) =>
        match b64url_decode enc_payload, b64url_decode enc_sig with
        | some payload, some sig =>
          if sig = hmac_sha256 secret payload then
            match json_loads payload with
            | none => .ok (false, "invalid JSON payload")
            | some parsed => verify_parsed parsed now
          else .ok (false, "invalid signature")
        | _, _ => .ok (false, "malformed token")

end Policy

/-! ## Lemmas about the binary64 rounding model -/

namespace Fp

theorem log2_fuel_spec : ∀ (fuel n : ℕ), 1 ≤ n → n ≤ fuel →
    2 ^ log2_fuel fuel n ≤ n ∧ n < 2 ^ (log2_fuel fuel n + 1) := by
  intro fuel
  induction fuel with
  | zero => intro n h1 h2; omega
  | succ fuel ih =>
    intro n h1 h2
    simp only [log2_fuel]
    by_cases hn : n ≤ 1
    · simp only [if_pos hn]
      norm_num
      omega
    · simp only [if_neg hn]
      obtain ⟨ha, hb⟩ := ih (n / 2) (by omega) (by omega)
      have e1 : 2 ^ (log2_fuel fuel (n / 2) + 1) = 2 ^ log2_fuel fuel (n / 2) * 2 :=
        pow_succ 2 _
      have e2 : 2 ^ (log2_fuel fuel (n / 2) + 1 + 1) = 2 ^ (log2_fuel fuel (n / 2) + 1) * 2 :=
        pow_succ 2 _
      omega

theorem nlog2_spec (n : ℕ) (h : 1 ≤ n) :
    2 ^ nlog2 n ≤ n ∧ n < 2 ^ (nlog2 n + 1) :=
  log2_fuel_spec n n h le_rfl

theorem pow2z_eq (e : ℤ) : pow2z e = (2 : ℚ) ^ e := by
  rcases le_or_lt 0 e with h | h
  · rw [pow2z, if_pos h]
    conv_rhs => rw [← Int.toNat_of_nonneg h]
    rw [zpow_natCast]
    push_cast
    ring
  · have h2 : (0 : ℤ) ≤ -e := by omega
    have he : e = -(((-e).toNat : ℕ) : ℤ) := by omega
    rw [pow2z, if_neg (not_le.mpr h)]
    conv_rhs => rw [he]
    rw [zpow_neg, zpow_natCast]
    push_cast
    ring

theorem floorLog2Q_spec (q : ℚ) (hq : 0 < q) :
    (2 : ℚ) ^ floorLog2Q q ≤ q ∧ q < (2 : ℚ) ^ (floorLog2Q q + 1) := by
  have hnum : 0 < q.num := Rat.num_pos.mpr hq
  have hden : 0 < q.den := q.den_pos
  obtain ⟨ha1, ha2⟩ := nlog2_spec q.num.natAbs (by omega)
  obtain ⟨hb1, hb2⟩ := nlog2_spec q.den (by omega)
  set a := nlog2 q.num.natAbs with hadef
  set b := nlog2 q.den with hbdef
  have hdenq : (0 : ℚ) < (q.den : ℚ) := by exact_mod_cast hden
  have hnumq : ((q.num.natAbs : ℕ) : ℚ) = (q.num : ℚ) := by
    rw [Int.cast_natAbs, abs_of_pos hnum]
  have hqeq : q = (q.num : ℚ) / (q.den : ℚ) := (Rat.num_div_den q).symm
  have hca : ((2 ^ a : ℕ) : ℚ) = (2 : ℚ) ^ ((a : ℤ)) := by
    rw [zpow_natCast]; push_cast; ring
  have hcb : ((2 ^ b : ℕ) : ℚ) = (2 : ℚ) ^ ((b : ℤ)) := by
    rw [zpow_natCast]; push_cast; ring
  have hna1 : (2 : ℚ) ^ ((a : ℤ)) ≤ (q.num : ℚ) := by
    rw [← hca, ← hnumq]; exact_mod_cast ha1
  have hna2 : (q.num : ℚ) < (2 : ℚ) ^ ((a : ℤ) + 1) := by
    have : ((a : ℤ) + 1) = ((a + 1 : ℕ) : ℤ) := by push_cast; ring
    rw [this, zpow_natCast]
    rw [← hnumq]
    exact_mod_cast ha2
  have hnb1 : (2 : ℚ) ^ ((b : ℤ)) ≤ (q.den : ℚ) := by
    rw [← hcb]; exact_mod_cast hb1
  have hnb2 : (q.den : ℚ) < (2 : ℚ) ^ ((b : ℤ) + 1) := by
    have : ((b : ℤ) + 1) = ((b + 1 : ℕ) : ℤ) := by push_cast; ring
    rw [this, zpow_natCast]
    exact_mod_cast hb2
  have hu : q < (2 : ℚ) ^ ((a : ℤ) - b + 1) := by
    rw [hqeq, div_lt_iff₀ hdenq]
    calc (q.num : ℚ) < (2 : ℚ) ^ ((a : ℤ) + 1) := hna2
      _ = (2 : ℚ) ^ ((a : ℤ) - b + 1) * (2 : ℚ) ^ ((b : ℤ)) := by
          rw [← zpow_add₀ (by norm_num : (2 : ℚ) ≠ 0)]; congr 1; ring
      _ ≤ (2 : ℚ) ^ ((a : ℤ) - b + 1) * (q.den : ℚ) := by
          apply mul_le_mul_of_nonneg_left hnb1 (zpow_nonneg (by norm_num) _)
  have hl : (2 : ℚ) ^ ((a : ℤ) - b - 1) < q := by
    rw [hqeq, lt_div_iff₀ hdenq]
    calc (2 : ℚ) ^ ((a : ℤ) - b - 1) * (q.den : ℚ)
        < (2 : ℚ) ^ ((a : ℤ) - b - 1) * (2 : ℚ) ^ ((b : ℤ) + 1) := by
          apply mul_lt_mul_of_pos_left hnb2 (zpow_pos (by norm_num) _)
      _ = (2 : ℚ) ^ ((a : ℤ)) := by
          rw [← zpow_add₀ (by norm_num : (2 : ℚ) ≠ 0)]; congr 1; ring
      _ ≤ (q.num : ℚ) := hna1
  rw [floorLog2Q]
  rw [pow2z_eq]
  split_ifs with hc
  · exact ⟨hc, hu⟩
  · refine ⟨le_of_lt hl, ?_⟩
    have : ((a : ℤ) - b - 1) + 1 = (a : ℤ) - b := by ring
    rw [this]
    exact lt_of_not_le hc

theorem floorLog2Q_unique (q : ℚ) (hq : 0 < q) (E : ℤ)
    (h1 : (2 : ℚ) ^ E ≤ q) (h2 : q < (2 : ℚ) ^ (E + 1)) : floorLog2Q q = E := by
  obtain ⟨g1, g2⟩ := floorLog2Q_spec q hq
  by_contra hne
  rcases lt_or_gt_of_ne hne with h | h
  · have : (2 : ℚ) ^ (floorLog2Q q + 1) ≤ (2 : ℚ) ^ E :=
      zpow_le_zpow_right₀ (by norm_num) (by omega)
    linarith
  · have : (2 : ℚ) ^ (E + 1) ≤ (2 : ℚ) ^ (floorLog2Q q) :=
      zpow_le_zpow_right₀ (by norm_num) (by omega)
    linarith

theorem round_half_even_intCast (n : ℤ) : round_half_even ((n : ℤ) : ℚ) = n := by
  rw [round_half_even, Int.floor_intCast]
  norm_num

theorem rnd53pos_fix (mm : ℕ) (e : ℤ) (h1 : 1 ≤ mm) (h2 : mm < 2 ^ 53) :
    rnd53pos ((mm : ℚ) * (2 : ℚ) ^ e) = (mm : ℚ) * (2 : ℚ) ^ e := by
  have hmq : (0 : ℚ) < (mm : ℚ) := by exact_mod_cast h1
  have hq : 0 < (mm : ℚ) * (2 : ℚ) ^ e := mul_pos hmq (zpow_pos (by norm_num) e)
  obtain ⟨hm1, hm2⟩ := nlog2_spec mm h1
  set t := nlog2 mm with htdef
  have ht52 : t ≤ 52 := by
    by_contra hc
    have : (2 : ℕ) ^ 53 ≤ 2 ^ t := Nat.pow_le_pow_right (by norm_num) (by omega)
    omega
  have hflq : floorLog2Q ((mm : ℚ) * (2 : ℚ) ^ e) = (t : ℤ) + e := by
    apply floorLog2Q_unique _ hq
    · rw [zpow_add₀ (by norm_num : (2 : ℚ) ≠ 0)]
      apply mul_le_mul_of_nonneg_right _ (zpow_nonneg (by norm_num) e)
      rw [zpow_natCast]
      exact_mod_cast hm1
    · have hre : ((t : ℤ) + e) + 1 = ((t + 1 : ℕ) : ℤ) + e := by push_cast; ring
      rw [hre, zpow_add₀ (by norm_num : (2 : ℚ) ≠ 0), zpow_natCast]
      apply mul_lt_mul_of_pos_right _ (zpow_pos (by norm_num) e)
      exact_mod_cast hm2
  have hs : (mm : ℚ) * (2 : ℚ) ^ e * pow2z (52 - ((t : ℤ) + e)) =
      (((mm * 2 ^ (52 - t) : ℕ) : ℤ) : ℚ) := by
    rw [pow2z_eq, mul_assoc, ← zpow_add₀ (by norm_num : (2 : ℚ) ≠ 0)]
    have hee : e + (52 - ((t : ℤ) + e)) = ((52 - t : ℕ) : ℤ) := by
      omega
    rw [hee, zpow_natCast]
    push_cast
    ring
  rw [rnd53pos, hflq, hs, round_half_even_intCast]
  rw [pow2z_eq]
  push_cast
  rw [mul_assoc, ← zpow_natCast (2 : ℚ) (52 - t), ← zpow_add₀ (by norm_num : (2 : ℚ) ≠ 0)]
  have hee2 : ((52 - t : ℕ) : ℤ) + ((t : ℤ) + e - 52) = e := by omega
  rw [hee2]

theorem rnd53_fix (mm : ℕ) (e : ℤ) (h2 : mm < 2 ^ 53) :
    rnd53 ((mm : ℚ) * (2 : ℚ) ^ e) = (mm : ℚ) * (2 : ℚ) ^ e := by
  rcases Nat.eq_zero_or_pos mm with rfl | h1
  · simp [rnd53]
  · have hmq : (0 : ℚ) < (mm : ℚ) := by exact_mod_cast h1
    have hq : 0 < (mm : ℚ) * (2 : ℚ) ^ e := mul_pos hmq (zpow_pos (by norm_num) e)
    rw [rnd53, if_neg hq.ne', if_neg (not_lt.mpr hq.le)]
    exact rnd53pos_fix mm e h1 h2

theorem rnd53_natCast (n : ℕ) (h : n < 2 ^ 53) : rnd53 ((n : ℕ) : ℚ) = (n : ℚ) := by
  have := rnd53_fix n 0 h
  simpa using this

theorem rnd53_mask : rnd53 ((2 : ℚ) ^ 63 - 1) = 2 ^ 63 := by
  have hq : (0 : ℚ) < 2 ^ 63 - 1 := by norm_num
  have h62 : (2 : ℚ) ^ (62 : ℤ) = ((2 : ℚ) ^ (62 : ℕ)) := by
    rw [show (62 : ℤ) = ((62 : ℕ) : ℤ) from rfl, zpow_natCast]
  have h63 : (2 : ℚ) ^ ((62 : ℤ) + 1) = ((2 : ℚ) ^ (63 : ℕ)) := by
    rw [show (62 : ℤ) + 1 = ((63 : ℕ) : ℤ) from rfl, zpow_natCast]
  have hflq : floorLog2Q ((2 : ℚ) ^ 63 - 1) = 62 := by
    apply floorLog2Q_unique _ hq
    · rw [h62]; norm_num
    · rw [h63]; norm_num
  rw [rnd53, if_neg hq.ne', if_neg (not_lt.mpr hq.le), rnd53pos, hflq]
  have hp1 : pow2z (52 - 62) = 1 / 1024 := by
    norm_num [pow2z, show Int.toNat 10 = 10 from rfl]
  have hp2 : pow2z (62 - 52 : ℤ) = 1024 := by
    norm_num [pow2z, show Int.toNat 10 = 10 from rfl]
  rw [hp1, hp2]
  have harg : ((2 : ℚ) ^ 63 - 1) * (1 / 1024) = ((2 ^ 53 - 1 : ℤ) : ℚ) + 1023 / 1024 := by
    push_cast
    norm_num
  rw [harg]
  have hfl : ⌊((2 ^ 53 - 1 : ℤ) : ℚ) + 1023 / 1024⌋ = 2 ^ 53 - 1 := by
    rw [Int.floor_eq_iff]
    constructor
    · norm_num
    · push_cast; norm_num
  rw [round_half_even, hfl]
  have hfrac : ((2 ^ 53 - 1 : ℤ) : ℚ) + 1023 / 1024 - ((2 ^ 53 - 1 : ℤ) : ℚ) = 1023 / 1024 := by
    ring
  rw [hfrac]
  rw [if_neg (by norm_num), if_pos (by norm_num)]
  push_cast
  norm_num

end Fp

/-! ## Lemmas about the greenlist hash and thresholds -/

namespace Statistical

theorem pyFloat_MASK63 : Fp.pyFloat MASK63 = (2 : ℚ) ^ 63 := by
  have h1 : ((MASK63 : ℕ) : ℚ) = (2 : ℚ) ^ 63 - 1 := by norm_num [MASK63]
  rw [Fp.pyFloat, h1, Fp.rnd53_mask]

/-- For a `greenlist_ratio` that is a representable binary64 value, the
threshold `int(ratio * float(2^63 - 1))` is exactly `⌊ratio * 2^63⌋`:
`float(2^63 - 1)` rounds to `2^63` and scaling a binary64 value by a power
of two is exact. -/
theorem green_threshold_eq (r : ℚ) (mm : ℕ) (e : ℤ) (hm : mm < 2 ^ 53)
    (hr : r = (mm : ℚ) * (2 : ℚ) ^ e) :
    Fp.pyTrunc (Fp.pyMul r (Fp.pyFloat MASK63)) = ⌊r * (2 : ℚ) ^ 63⌋ := by
  rw [pyFloat_MASK63, Fp.pyMul]
  have hsplit : r * (2 : ℚ) ^ 63 = (mm : ℚ) * (2 : ℚ) ^ (e + 63) := by
    rw [hr, mul_assoc, ← zpow_natCast (2 : ℚ) 63, ← zpow_add₀ (by norm_num : (2 : ℚ) ≠ 0)]
    norm_num
  rw [hsplit, Fp.rnd53_fix mm (e + 63) hm, ← hsplit, Fp.pyTrunc, if_pos]
  rw [hr]
  positivity

/-- `token_is_green` for a representable ratio, characterised with the exact
floor of `ratio * 2^63`. -/
theorem token_is_green_iff (token_id seed : ℕ) (r : ℚ) (mm : ℕ) (e : ℤ)
    (hm : mm < 2 ^ 53) (hr : r = (mm : ℚ) * (2 : ℚ) ^ e) :
    token_is_green token_id seed r = true ↔
      (mix63 (token_id ^^^ (seed &&& MASK63)) : ℤ) < ⌊r * (2 : ℚ) ^ 63⌋ := by
  rw [token_is_green, green_threshold_eq r mm e hm hr, decide_eq_true_eq]

theorem mix63_eq_mod (x : ℕ) : mix63 x = (A * (x % 2 ^ 63) + B) % 2 ^ 63 := by
  rw [mix63, MASK63, Nat.and_pow_two_sub_one_eq_mod, Nat.and_pow_two_sub_one_eq_mod]

theorem mix63_lt (x : ℕ) : mix63 x < 2 ^ 63 := by
  rw [mix63_eq_mod]
  exact Nat.mod_lt _ (by norm_num)

theorem mix63_inj {x y : ℕ} (hx : x < 2 ^ 63) (hy : y < 2 ^ 63)
    (h : mix63 x = mix63 y) : x = y := by
  rw [mix63_eq_mod, mix63_eq_mod, Nat.mod_eq_of_lt hx, Nat.mod_eq_of_lt hy] at h
  have h2 : A * x ≡ A * y [MOD 2 ^ 63] := by
    have hmod : A * x + B ≡ A * y + B [MOD 2 ^ 63] := h
    exact hmod.add_right_cancel' B
  have hco : Nat.gcd (2 ^ 63) A = 1 := by decide
  have h3 : x ≡ y [MOD 2 ^ 63] := Nat.ModEq.cancel_left_of_coprime hco h2
  have := h3
  rw [Nat.ModEq, Nat.mod_eq_of_lt hx, Nat.mod_eq_of_lt hy] at this
  exact this

theorem sparse_key_inj {seed : ℕ} {i j : ℕ} (hi : i < 2 ^ 63) (hj : j < 2 ^ 63)
    (h : sparse_key seed i = sparse_key seed j) : i = j := by
  rw [sparse_key, sparse_key] at h
  have hs : seed &&& MASK63 < 2 ^ 63 := by
    rw [MASK63, Nat.and_pow_two_sub_one_eq_mod]
    exact Nat.mod_lt _ (by norm_num)
  have hxy := mix63_inj (Nat.xor_lt_two_pow hi hs) (Nat.xor_lt_two_pow hj hs) h
  have : i ^^^ (seed &&& MASK63) ^^^ (seed &&& MASK63) =
      j ^^^ (seed &&& MASK63) ^^^ (seed &&& MASK63) := by rw [hxy]
  simpa [Nat.xor_assoc, Nat.xor_self, Nat.xor_zero] using this

theorem sparse_k_pos (V : ℕ) (r : ℚ) (m : ℕ) : 1 ≤ sparse_k V r m := by
  rw [sparse_k]; omega

theorem sparse_k_le (V : ℕ) (r : ℚ) (m : ℕ) (hV : 0 < V) : sparse_k V r m ≤ V := by
  rw [sparse_k]; omega

theorem select_sparse_length (V seed : ℕ) (r : ℚ) (m : ℕ) (hV : 0 < V) :
    (select_sparse_green_ids V seed r m).length = sparse_k V r m := by
  rw [select_sparse_green_ids, if_neg (by omega), List.length_take]
  have hperm := List.perm_insertionSort
    (fun a b => sparse_key seed a ≤ sparse_key seed b) (List.range V)
  rw [hperm.length_eq, List.length_range]
  have := sparse_k_le V r m hV
  omega

theorem select_sparse_spec (V seed : ℕ) (r : ℚ) (m : ℕ) (hV : 0 < V) (hV63 : V ≤ 2 ^ 63) :
    List.Sorted (fun a b => sparse_key seed a ≤ sparse_key seed b)
      (select_sparse_green_ids V seed r m) ∧
    (∀ i ∈ select_sparse_green_ids V seed r m, i < V) ∧
    (select_sparse_green_ids V seed r m).Nodup ∧
    ∀ i, i < V → i ∉ select_sparse_green_ids V seed r m →
      ∀ j ∈ select_sparse_green_ids V seed r m, sparse_key seed j < sparse_key seed i := by
  have hne : ¬ V = 0 := by omega
  haveI : IsTotal ℕ (fun a b => sparse_key seed a ≤ sparse_key seed b) :=
    ⟨fun a b => le_total _ _⟩
  haveI : IsTrans ℕ (fun a b => sparse_key seed a ≤ sparse_key seed b) :=
    ⟨fun a b c => le_trans⟩
  have hperm := List.perm_insertionSort
    (fun a b => sparse_key seed a ≤ sparse_key seed b) (List.range V)
  have hsorted := List.sorted_insertionSort
    (fun a b => sparse_key seed a ≤ sparse_key seed b) (List.range V)
  have hnodup : (List.insertionSort
      (fun a b => sparse_key seed a ≤ sparse_key seed b) (List.range V)).Nodup :=
    hperm.nodup_iff.mpr (List.nodup_range V)
  have hmem_sort : ∀ x, x ∈ List.insertionSort
      (fun a b => sparse_key seed a ≤ sparse_key seed b) (List.range V) ↔ x < V := by
    intro x
    rw [hperm.mem_iff, List.mem_range]
  refine ⟨?_, ?_, ?_, ?_⟩
  · rw [select_sparse_green_ids, if_neg hne]
    exact hsorted.sublist (List.take_sublist _ _)
  · intro i hi
    rw [select_sparse_green_ids, if_neg hne] at hi
    exact (hmem_sort i).mp (List.mem_of_mem_take hi)
  · rw [select_sparse_green_ids, if_neg hne]
    exact hnodup.sublist (List.take_sublist _ _)
  · intro i hiV hnotin j hj
    rw [select_sparse_green_ids, if_neg hne] at hnotin hj
    set sorted := List.insertionSort
      (fun a b => sparse_key seed a ≤ sparse_key seed b) (List.range V) with hsorteddef
    set k := sparse_k V r m with hkdef
    have hisort : i ∈ sorted := (hmem_sort i).mpr hiV
    have hidrop : i ∈ sorted.drop k := by
      have := (List.take_append_drop k sorted) ▸ hisort
      rcases List.mem_append.mp this with h | h
      · exact absurd h hnotin
      · exact h
    have hpw : List.Pairwise (fun a b => sparse_key seed a ≤ sparse_key seed b)
        (sorted.take k ++ sorted.drop k) := by
      rw [List.take_append_drop]
      exact hsorted
    have hle : sparse_key seed j ≤ sparse_key seed i :=
      (List.pairwise_append.mp hpw).2.2 j hj i hidrop
    have hjV : j < V := (hmem_sort j).mp (List.mem_of_mem_take hj)
    have hne2 : j ≠ i := fun h => hnotin (h ▸ hj)
    refine lt_of_le_of_ne hle fun heq => hne2 ?_
    exact sparse_key_inj (by omega) (by omega) heq

theorem rep_r70 : (3152519739159347 / 4503599627370496 : ℚ) =
    ((3152519739159347 : ℕ) : ℚ) * (2 : ℚ) ^ (-52 : ℤ) := by
  rw [show (-52 : ℤ) = -((52 : ℕ) : ℤ) from rfl, zpow_neg, zpow_natCast]
  push_cast
  norm_num

theorem pyMul_ten_r70 :
    Fp.pyMul (Fp.pyFloat 10) (3152519739159347 / 4503599627370496 : ℚ) = 7 := by
  have h10 : Fp.pyFloat 10 = 10 := by
    have := Fp.rnd53_natCast 10 (by norm_num)
    rw [Fp.pyFloat]
    simpa using this
  rw [h10, Fp.pyMul]
  have hq : (10 : ℚ) * (3152519739159347 / 4503599627370496) =
      15762598695796735 / 2251799813685248 := by norm_num
  rw [hq]
  have hpos : (0 : ℚ) < 15762598695796735 / 2251799813685248 := by norm_num
  rw [Fp.rnd53, if_neg hpos.ne', if_neg (not_lt.mpr hpos.le), Fp.rnd53pos]
  have hflq : Fp.floorLog2Q (15762598695796735 / 2251799813685248 : ℚ) = 2 := by
    apply Fp.floorLog2Q_unique _ hpos
    · rw [show (2 : ℤ) = ((2 : ℕ) : ℤ) from rfl, zpow_natCast]
      norm_num
    · rw [show (2 : ℤ) + 1 = ((3 : ℕ) : ℤ) from rfl, zpow_natCast]
      norm_num
  rw [hflq]
  have hp1 : Fp.pow2z (52 - 2) = ((2 ^ 50 : ℕ) : ℚ) := by
    norm_num [Fp.pow2z, show Int.toNat 50 = 50 from rfl]
  have hp2 : Fp.pow2z (2 - 52 : ℤ) = (((2 : ℚ) ^ (50 : ℕ)))⁻¹ := by
    norm_num [Fp.pow2z, show Int.toNat 50 = 50 from rfl]
  rw [hp1, hp2]
  have hs : (15762598695796735 / 2251799813685248 : ℚ) * ((2 ^ 50 : ℕ) : ℚ) =
      ((7881299347898367 : ℤ) : ℚ) + 1 / 2 := by
    push_cast
    norm_num
  rw [hs]
  have hfl : ⌊((7881299347898367 : ℤ) : ℚ) + 1 / 2⌋ = 7881299347898367 := by
    rw [Int.floor_eq_iff]
    constructor
    · norm_num
    · push_cast
      norm_num
  rw [Fp.round_half_even, hfl]
  have hfrac : ((7881299347898367 : ℤ) : ℚ) + 1 / 2 - ((7881299347898367 : ℤ) : ℚ) = 1 / 2 := by
    ring
  rw [hfrac]
  rw [if_neg (by norm_num), if_neg (by norm_num), if_neg (by norm_num)]
  push_cast
  norm_num

theorem sparse_k_counterexample :
    sparse_k 10 (3152519739159347 / 4503599627370496 : ℚ) 2048 = 7 := by
  rw [sparse_k, pyMul_ten_r70, Fp.pyTrunc, if_pos (by norm_num)]
  have h7 : ⌊(7 : ℚ)⌋ = 7 := by norm_num
  rw [h7]
  decide

theorem spec_sparse_k_counterexample :
    spec_sparse_k 10 (3152519739159347 / 4503599627370496 : ℚ) 2048 = 6 := by
  rw [spec_sparse_k]
  have h1 : ((10 : ℕ) : ℚ) = (10 : ℚ) := by norm_num
  rw [h1]
  have hfl : ⌊(10 : ℚ) * (3152519739159347 / 4503599627370496)⌋ = 6 := by
    rw [Int.floor_eq_iff]
    constructor
    · push_cast
      norm_num
    · push_cast
      norm_num
  rw [hfl]
  decide

/-- Counting over the `Finset.Ico` of scored positions equals the length of
the filtered index list that the scoring loop walks. -/
theorem card_filter_Ico (a b : ℕ) (p : ℕ → Bool) :
    ((Finset.Ico a b).filter fun t => p t = true).card =
      ((List.range' a (b - a)).filter p).length := by
  rw [Nat.Ico_eq_range']
  simp [Finset.filter, Finset.card, Multiset.filter_coe]

end Statistical

/-! ## Lemmas about the chain embedding -/

namespace Chain

variable (sha256_hex : String → String)

theorem check_links_none {b0 : ChainBlock} {l : List ChainBlock}
    (h : List.Chain' LinkRel (b0 :: l)) : check_links b0 l = none := by
  induction l generalizing b0 with
  | nil => rfl
  | cons b rest ih =>
    obtain ⟨h1, h2⟩ := List.chain'_cons.mp h
    have h1' : b.prev_hash = b0.tx_hash := h1
    rw [check_links, if_neg (not_not_intro h1')]
    exact ih h2

theorem chainInv_nil : ChainInv [] :=
  ⟨by simp, List.chain'_nil⟩

theorem chainInv_anchor (c : List ChainBlock) (call : AnchorCall)
    (h : ChainInv c) : ChainInv (anchor sha256_hex c call) := by
  obtain ⟨hhead, hchain⟩ := h
  rw [anchor]
  refine ⟨?_, ?_⟩
  · intro b0 hb0
    cases c with
    | nil =>
      simp only [List.nil_append, List.head?_cons, Option.mem_def, Option.some.injEq] at hb0
      subst hb0
      rfl
    | cons a t =>
      simp only [List.cons_append, List.head?_cons, Option.mem_def, Option.some.injEq] at hb0
      rw [← hb0]
      exact hhead a rfl
  · rw [List.chain'_append]
    refine ⟨hchain, List.chain'_singleton _, ?_⟩
    intro x hx y hy
    simp only [List.head?_cons, Option.mem_def, Option.some.injEq] at hy
    subst hy
    rw [Option.mem_def] at hx
    show _ = x.tx_hash
    simp [hx]

theorem chainInv_anchor_all (calls : List AnchorCall) :
    ChainInv (anchor_all sha256_hex calls) := by
  rw [anchor_all]
  have hstep : ∀ c, ChainInv c →
      ChainInv (calls.foldl (anchor sha256_hex) c) := by
    induction calls with
    | nil => intro c h; exact h
    | cons a t ih => intro c h; exact ih _ (chainInv_anchor sha256_hex c a h)
  exact hstep [] chainInv_nil

theorem validate_chain_of_inv (blocks : List ChainBlock)
    (h : ChainInv blocks) : (validate_chain blocks).1 = true := by
  obtain ⟨hhead, hchain⟩ := h
  cases blocks with
  | nil => rfl
  | cons b0 rest =>
    rw [validate_chain, if_neg (not_not_intro (hhead b0 rfl)), check_links_none hchain]

end Chain

/-! ## Lemmas about the policy embedding -/

namespace Policy

theorem b64_val_b64_char : ∀ v : ℕ, v < 64 → b64_val (b64_char v) = some v := by
  decide

theorem b64_alphabet_length : b64_alphabet.length = 64 := by decide

theorem b64_char_ne_dot (v : ℕ) : b64_char v ≠ '.' := by
  rw [b64_char]
  by_cases h : v < 64
  · have hall : ∀ w : ℕ, w < 64 → b64_alphabet.getD w 'A' ≠ '.' := by decide
    exact hall v h
  · rw [List.getD_eq_default]
    · decide
    · rw [b64_alphabet_length]; omega

theorem dot_not_mem_encode (bs : List ℕ) : '.' ∉ b64url_encode bs := by
  induction bs using b64url_encode.induct with
  | case1 => simp [b64url_encode]
  | case2 b1 =>
    simp only [b64url_encode, List.mem_cons, List.not_mem_nil, or_false]
    push_neg
    exact ⟨(b64_char_ne_dot _).symm, (b64_char_ne_dot _).symm⟩
  | case3 b1 b2 =>
    simp only [b64url_encode, List.mem_cons, List.not_mem_nil, or_false]
    push_neg
    exact ⟨(b64_char_ne_dot _).symm, (b64_char_ne_dot _).symm, (b64_char_ne_dot _).symm⟩
  | case4 b1 b2 b3 rest ih =>
    simp only [b64url_encode, List.mem_cons]
    push_neg
    exact ⟨(b64_char_ne_dot _).symm, (b64_char_ne_dot _).symm, (b64_char_ne_dot _).symm,
      (b64_char_ne_dot _).symm, ih⟩

theorem split_dot_append (pre post : List Char) (h : '.' ∉ pre) :
    split_dot (pre ++ '.' :: post) = some (pre, post) := by
  induction pre with
  | nil => simp [split_dot]
  | cons c rest ih =>
    have hc : ¬ c = '.' := fun hc => h (hc ▸ List.mem_cons_self c rest)
    have hrest : '.' ∉ rest := fun hm => h (List.mem_cons_of_mem c hm)
    rw [List.cons_append, split_dot, if_neg hc, ih hrest]

theorem b64_roundtrip : ∀ bs : List ℕ, (∀ b ∈ bs, b < 256) →
    b64url_decode (b64url_encode bs) = some bs := by
  intro bs
  induction bs using b64url_encode.induct with
  | case1 => intro _; rfl
  | case2 b1 =>
    intro hb
    have h1 : b1 < 256 := hb b1 (by simp)
    rw [b64url_encode, b64url_decode]
    rw [b64_val_b64_char _ (by omega), b64_val_b64_char _ (by omega)]
    simp only [Option.pure_def, Option.bind_some, Option.bind_eq_bind, Option.some_bind,
      Option.some.injEq, List.cons.injEq, and_true]
    omega
  | case3 b1 b2 =>
    intro hb
    have h1 : b1 < 256 := hb b1 (by simp)
    have h2 : b2 < 256 := hb b2 (by simp)
    rw [b64url_encode, b64url_decode]
    rw [b64_val_b64_char _ (by omega), b64_val_b64_char _ (by omega),
      b64_val_b64_char _ (by omega)]
    simp only [Option.pure_def, Option.bind_some, Option.bind_eq_bind, Option.some_bind,
      Option.some.injEq, List.cons.injEq, and_true]
    constructor
    · omega
    · omega
  | case4 b1 b2 b3 rest ih =>
    intro hb
    have h1 : b1 < 256 := hb b1 (by simp)
    have h2 : b2 < 256 := hb b2 (by simp)
    have h3 : b3 < 256 := hb b3 (by simp)
    have hrest : ∀ b ∈ rest, b < 256 := fun b hm => hb b (by simp [hm])
    rw [b64url_encode, b64url_decode]
    rw [b64_val_b64_char _ (by omega), b64_val_b64_char _ (by omega),
      b64_val_b64_char _ (by omega), b64_val_b64_char _ (by omega), ih hrest]
    simp only [Option.pure_def, Option.bind_some, Option.bind_eq_bind, Option.some_bind,
      Option.some.injEq, List.cons.injEq, and_true]
    refine ⟨by omega, by omega, by omega⟩

theorem lookup_append_of_none {α β : Type} [BEq α] (l1 l2 : List (α × β)) (k : α)
    (h : l1.lookup k = none) : (l1 ++ l2).lookup k = l2.lookup k := by
  induction l1 with
  | nil => simp
  | cons a t ih =>
    obtain ⟨ka, va⟩ := a
    rw [List.cons_append]
    simp only [List.lookup] at h ⊢
    rcases hke : (k == ka) with _ | _
    · simp only [hke] at h ⊢
      exact ih h
    · simp only [hke] at h
      simp at h

theorem exp_ne_iat : (exp_key == iat_key) = false := by decide

theorem opt_out_body_lookup_exp (payload : List (List Char × JsonVal)) (now ttl : ℕ)
    (hiat : payload.lookup iat_key = none) (hexp : payload.lookup exp_key = none) :
    (opt_out_body payload now ttl).lookup exp_key = some (.num (now + ttl)) := by
  have hinner_eq : setdefault payload iat_key (JsonVal.num (now : ℤ)) =
      payload ++ [(iat_key, JsonVal.num (now : ℤ))] := by
    rw [setdefault, hiat]
  have hinner : (payload ++ [(iat_key, JsonVal.num (now : ℤ))]).lookup exp_key = none := by
    rw [lookup_append_of_none _ _ _ hexp]
    simp [List.lookup, exp_ne_iat]
  rw [opt_out_body, hinner_eq]
  simp only [setdefault, hinner]
  rw [lookup_append_of_none _ _ _ hinner]
  simp [List.lookup]

theorem verify_encoded (hmac_sha256 : List ℕ → List ℕ → List ℕ)
    (json_loads : List ℕ → Option JsonVal) (raw sig secret : List ℕ) (now : ℕ)
    (hraw : ∀ b ∈ raw, b < 256) (hsig : ∀ b ∈ sig, b < 256) :
    verify_opt_out_token hmac_sha256 json_loads
      (some (b64url_encode raw ++ '.' :: b64url_encode sig)) secret now =
    (if sig = hmac_sha256 secret raw then
      match json_loads raw with
      | none => .ok (false, "invalid JSON payload")
      | some parsed => verify_parsed parsed now
    else .ok (false, "invalid signature")) := by
  have hne : ¬ (b64url_encode raw ++ '.' :: b64url_encode sig) = [] := by simp
  rw [verify_opt_out_token, if_neg hne, split_dot_append _ _ (dot_not_mem_encode raw)]
  simp only [b64_roundtrip raw hraw, b64_roundtrip sig hsig]

end Policy

/-! ## Claim theorems -/

/-- C1 (code exhibit): anchoring a single record `("h1", 100, "s1")`.  The
`anchor` call hashes the Python isoformat timestamp it read (here
`"2026-10-12T00:00:00+00:00"`) into `tx_hash`, but `insert_block` passes no
timestamp, so the stored row's `timestamp` column holds SQLite's
`datetime('now')` default (here `"2026-10-12 00:00:00"`) — a different
string even at the same instant.  Instantiating the uninterpreted SHA-256
with a function that keeps the two distinct preimages distinct (the
identity; the real SHA-256 also separates these two strings), the stored
chain does have the genesis `prev_hash` and `validate_chain` returns
`(true, …)`, but its block's `tx_hash` is not the hash of
`prev_hash ∥ data_hash ∥ decimal(issuer_id) ∥ timestamp` over the stored
`timestamp` field — the claim's invariant fails on the stored chain. -/
theorem chain_stored_timestamp_exhibit :
    Chain.anchor_all (fun s => s)
        [⟨"h1", 100, "s1", "2026-10-12T00:00:00+00:00", "2026-10-12 00:00:00"⟩] =
      [{ block_num := 1, prev_hash := Chain.GENESIS_PREV_HASH,
         tx_hash := Chain.GENESIS_PREV_HASH ++ "h1" ++ toString (100 : ℕ) ++
           "2026-10-12T00:00:00+00:00",
         data_hash := "h1", issuer_id := 100, signature_hex := "s1",
         timestamp := "2026-10-12 00:00:00" }] ∧
    (Chain.validate_chain (Chain.anchor_all (fun s => s)
        [⟨"h1", 100, "s1", "2026-10-12T00:00:00+00:00", "2026-10-12 00:00:00"⟩])).1 =
      true ∧
    ∀ b ∈ Chain.anchor_all (fun s => s)
        [⟨"h1", 100, "s1", "2026-10-12T00:00:00+00:00", "2026-10-12 00:00:00"⟩],
      b.tx_hash ≠
        (fun s => s) (b.prev_hash ++ b.data_hash ++ toString b.issuer_id ++
          b.timestamp) := by
  have hch : Chain.anchor_all (fun s => s)
      [⟨"h1", 100, "s1", "2026-10-12T00:00:00+00:00", "2026-10-12 00:00:00"⟩] =
      [{ block_num := 1, prev_hash := Chain.GENESIS_PREV_HASH,
         tx_hash := Chain.GENESIS_PREV_HASH ++ "h1" ++ toString (100 : ℕ) ++
           "2026-10-12T00:00:00+00:00",
         data_hash := "h1", issuer_id := 100, signature_hex := "s1",
         timestamp := "2026-10-12 00:00:00" }] := rfl
  refine ⟨hch, rfl, ?_⟩
  intro b hb
  rw [hch, List.mem_singleton] at hb
  subst hb
  decide

/-- C2 counterexample: at the binary64 ratio `0.5`, `seed = 0` and
`token_id = 5773542457973463482` (whose `mix63` image is `2^62 - 1`), the
code's `token_is_green` is true while the claim's exact-floor criterion
`mix63(…) < ⌊0.5⋅(2^63-1)⌋ = 2^62 - 1` is false: the code computes the
threshold as `int(0.5 * float(2^63-1)) = 2^62` since `float(2^63-1)` rounds
up to `2^63`. -/
theorem token_is_green_exact_floor_counterexample :
    Statistical.token_is_green 5773542457973463482 0 (1 / 2) = true ∧
    ¬ Statistical.spec_token_is_green 5773542457973463482 0 (1 / 2) := by
  have hrep : (1 / 2 : ℚ) = ((1 : ℕ) : ℚ) * (2 : ℚ) ^ (-1 : ℤ) := by
    rw [show (-1 : ℤ) = -((1 : ℕ) : ℤ) from rfl, zpow_neg, zpow_natCast]
    norm_num
  have hkey : Statistical.mix63 (5773542457973463482 ^^^ ((0 : ℕ) &&& Statistical.MASK63)) =
      2 ^ 62 - 1 := by decide
  constructor
  · rw [Statistical.token_is_green_iff _ _ _ 1 (-1) (by norm_num) hrep, hkey]
    have hth : ⌊(1 / 2 : ℚ) * (2 : ℚ) ^ 63⌋ = 2 ^ 62 := by
      have heq : (1 / 2 : ℚ) * (2 : ℚ) ^ 63 = ((2 ^ 62 : ℤ) : ℚ) := by
        push_cast
        norm_num
      rw [heq, Int.floor_intCast]
    rw [hth]
    push_cast
  · rw [Statistical.spec_token_is_green, hkey]
    have hth : ⌊(1 / 2 : ℚ) * ((2 : ℚ) ^ 63 - 1)⌋ = 2 ^ 62 - 1 := by
      rw [Int.floor_eq_iff]
      constructor
      · push_cast
        norm_num
      · push_cast
        norm_num
    rw [hth]
    push_cast
    norm_num

/-- C2 amended: for every token id, seed, and binary64-representable ratio,
`token_is_green(id, seed, ratio)` returns true exactly when
`mix63(id ⊕ (seed & (2^63-1))) < ⌊ratio × 2^63⌋` — i.e. the claim's formula
with `2^63` (the binary64 rounding of `2^63 - 1`) in place of `2^63 - 1`,
the exact product `ratio × 2^63` being representable and hence truncated
exactly. -/
theorem token_is_green_amended (token_id seed : ℕ) (greenlist_ratio : ℚ)
    (hrep : ∃ mm : ℕ, ∃ e : ℤ, mm < 2 ^ 53 ∧ greenlist_ratio = (mm : ℚ) * (2 : ℚ) ^ e) :
    Statistical.token_is_green token_id seed greenlist_ratio = true ↔
      (Statistical.mix63 (token_id ^^^ (seed &&& Statistical.MASK63)) : ℤ) <
        ⌊greenlist_ratio * (2 : ℚ) ^ 63⌋ := by
  obtain ⟨mm, e, hm, hr⟩ := hrep
  exact Statistical.token_is_green_iff token_id seed greenlist_ratio mm e hm hr

/-- C2 amended, witnessed at `token_id = 3`, `seed = 0`, `ratio = 0.5`. -/
theorem token_is_green_amended_witness :
    (∃ mm : ℕ, ∃ e : ℤ, mm < 2 ^ 53 ∧ (1 / 2 : ℚ) = (mm : ℚ) * (2 : ℚ) ^ e) ∧
    (Statistical.token_is_green 3 0 (1 / 2) = true ↔
      (Statistical.mix63 (3 ^^^ ((0 : ℕ) &&& Statistical.MASK63)) : ℤ) <
        ⌊(1 / 2 : ℚ) * (2 : ℚ) ^ 63⌋) := by
  have hrep : ∃ mm : ℕ, ∃ e : ℤ, mm < 2 ^ 53 ∧ (1 / 2 : ℚ) = (mm : ℚ) * (2 : ℚ) ^ e := by
    refine ⟨1, -1, by norm_num, ?_⟩
    rw [show (-1 : ℤ) = -((1 : ℕ) : ℤ) from rfl, zpow_neg, zpow_natCast]
    norm_num
  exact ⟨hrep, token_is_green_amended 3 0 (1 / 2) hrep⟩

/-- C3: in `WatermarkDetector.verify` with the default thresholds, a
CRC-valid payload forces status `"verified"` regardless of the statistical
score; otherwise a computed score classifies as `"verified"` when `z ≥ 4.0`,
`"likely"` when `2.5 ≤ z < 4.0`, `"none"` when `z < 2.5`; with neither,
`"none"`. -/
theorem verify_status_classification {α : Type} (payload : Option α)
    (stat_score : Option Statistical.StatisticalScore) :
    (payload.isSome = true →
      Detector.verify_status payload stat_score Detector.z_threshold_verified
        Detector.z_threshold_likely = "verified") ∧
    (payload = none → ∀ s, stat_score = some s →
      ((4 : ℝ) ≤ s.z_score →
        Detector.verify_status payload stat_score Detector.z_threshold_verified
          Detector.z_threshold_likely = "verified") ∧
      ((5 / 2 : ℝ) ≤ s.z_score → s.z_score < 4 →
        Detector.verify_status payload stat_score Detector.z_threshold_verified
          Detector.z_threshold_likely = "likely") ∧
      (s.z_score < 5 / 2 →
        Detector.verify_status payload stat_score Detector.z_threshold_verified
          Detector.z_threshold_likely = "none")) ∧
    (payload = none → stat_score = none →
      Detector.verify_status payload stat_score Detector.z_threshold_verified
        Detector.z_threshold_likely = "none") := by
  refine ⟨?_, ?_, ?_⟩
  · intro h
    obtain ⟨a, rfl⟩ := Option.isSome_iff_exists.mp h
    rfl
  · rintro rfl s rfl
    refine ⟨?_, ?_, ?_⟩
    · intro h4
      simp only [Detector.verify_status, Detector.z_threshold_verified,
        Detector.z_threshold_likely]
      rw [if_pos h4]
    · intro h25 h4
      simp only [Detector.verify_status, Detector.z_threshold_verified,
        Detector.z_threshold_likely]
      rw [if_neg (not_le.mpr h4), if_pos h25]
    · intro h
      simp only [Detector.verify_status, Detector.z_threshold_verified,
        Detector.z_threshold_likely]
      rw [if_neg (not_le.mpr (h.trans_le (by norm_num))), if_neg (not_le.mpr h)]
  · rintro rfl rfl
    rfl

/-- C3 witness: no payload, a score with `z = 5` classifies `"verified"`. -/
theorem verify_status_classification_witness :
    Detector.verify_status (none : Option Unit)
      (some ⟨0, 0, 0, (5 : ℝ), 0⟩) Detector.z_threshold_verified
      Detector.z_threshold_likely = "verified" := by
  have h := (verify_status_classification (none : Option Unit)
    (some ⟨0, 0, 0, (5 : ℝ), 0⟩)).2.1 rfl _ rfl
  exact h.1 (by norm_num)

/-- C4 counterexample: at `vocab_size = 10`, `seed = 0`,
`ratio = 0.7` (binary64: `3152519739159347/2^52`), `max_bias_tokens = 2048`,
the code returns `int(10 * 0.7) = 7` ids (the float product rounds up to
`7.0`), but the claim's `k = clip(⌊10 × ratio⌋, …) = 6`: the output is not
the claimed `k` smallest ids. -/
theorem select_sparse_exact_floor_counterexample :
    (Statistical.select_sparse_green_ids 10 0
        (3152519739159347 / 4503599627370496 : ℚ) 2048).length ≠
      Statistical.spec_sparse_k 10 (3152519739159347 / 4503599627370496 : ℚ) 2048 := by
  rw [Statistical.select_sparse_length 10 0 _ 2048 (by norm_num),
    Statistical.sparse_k_counterexample, Statistical.spec_sparse_k_counterexample]
  norm_num

/-- C4 amended: for every `vocab_size` with `0 < vocab_size ≤ 2^63`, seed,
ratio and `max_bias_tokens`, `select_sparse_green_ids` returns exactly the
`k` token ids in `[0, vocab_size)` whose `mix63(id ⊕ (seed & (2^63-1)))`
values are the smallest — ordered by that key — where
`k = clip(int(vocab_size × ratio computed in binary64), 1,
min(max_bias_tokens, vocab_size))`; as a pure function it is deterministic. -/
theorem select_sparse_green_ids_amended (vocab_size seed : ℕ) (greenlist_ratio : ℚ)
    (max_bias_tokens : ℕ) (hV : 0 < vocab_size) (hV63 : vocab_size ≤ 2 ^ 63) :
    (Statistical.select_sparse_green_ids vocab_size seed greenlist_ratio
        max_bias_tokens).length =
      Statistical.sparse_k vocab_size greenlist_ratio max_bias_tokens ∧
    List.Sorted (fun a b => Statistical.sparse_key seed a ≤ Statistical.sparse_key seed b)
      (Statistical.select_sparse_green_ids vocab_size seed greenlist_ratio
        max_bias_tokens) ∧
    (∀ i ∈ Statistical.select_sparse_green_ids vocab_size seed greenlist_ratio
        max_bias_tokens, i < vocab_size) ∧
    (Statistical.select_sparse_green_ids vocab_size seed greenlist_ratio
        max_bias_tokens).Nodup ∧
    (∀ i, i < vocab_size →
      i ∉ Statistical.select_sparse_green_ids vocab_size seed greenlist_ratio
        max_bias_tokens →
      ∀ j ∈ Statistical.select_sparse_green_ids vocab_size seed greenlist_ratio
        max_bias_tokens,
        Statistical.sparse_key seed j < Statistical.sparse_key seed i) := by
  obtain ⟨hsorted, hmem, hnodup, hsmall⟩ :=
    Statistical.select_sparse_spec vocab_size seed greenlist_ratio max_bias_tokens hV hV63
  exact ⟨Statistical.select_sparse_length vocab_size seed greenlist_ratio
    max_bias_tokens hV, hsorted, hmem, hnodup, hsmall⟩

/-- C4 amended, witnessed at `vocab_size = 4`, `seed = 0`, `ratio = 1/4`,
`max_bias_tokens = 2048`. -/
theorem select_sparse_green_ids_amended_witness :
    (Statistical.select_sparse_green_ids 4 0 (1 / 4) 2048).length =
      Statistical.sparse_k 4 (1 / 4) 2048 ∧
    List.Sorted (fun a b => Statistical.sparse_key 0 a ≤ Statistical.sparse_key 0 b)
      (Statistical.select_sparse_green_ids 4 0 (1 / 4) 2048) ∧
    (∀ i ∈ Statistical.select_sparse_green_ids 4 0 (1 / 4) 2048, i < 4) ∧
    (Statistical.select_sparse_green_ids 4 0 (1 / 4) 2048).Nodup ∧
    (∀ i, i < 4 → i ∉ Statistical.select_sparse_green_ids 4 0 (1 / 4) 2048 →
      ∀ j ∈ Statistical.select_sparse_green_ids 4 0 (1 / 4) 2048,
        Statistical.sparse_key 0 j < Statistical.sparse_key 0 i) :=
  select_sparse_green_ids_amended 4 0 (1 / 4) 2048 (by norm_num) (by norm_num)

/-- C5: for every token list of length `L > context_width` (and a ratio in
`[0, 1]`, a positive vocabulary for the sparse scorer), the dense and the
sparse scorer both score exactly `n = L - context_width` positions — one per
`t ∈ [context_width, L)`, each hit decided by greenness of `tokens[t]` under
the seed derived from the preceding `context_width` tokens — and return
`expected = n·p`, `z = (hits - expected)/√(n·p·(1-p))` with `z = 0` when the
variance is `0`, and `p_value = ½·erfc(z/√2)`, where `p` is the nominal
ratio for the dense scorer and `p = k/vocab_size` for the sparse scorer. -/
theorem scoring_formulas (context_width : ℕ) (greenlist_ratio : ℚ)
    (seedOf : List ℕ → ℕ) (erfc : ℝ → ℝ) (token_ids : List ℕ)
    (vocab_size max_bias_tokens : ℕ)
    (hlen : context_width < token_ids.length)
    (hr0 : 0 ≤ greenlist_ratio) (hr1 : greenlist_ratio ≤ 1) (hV : 0 < vocab_size) :
    (Statistical.score context_width greenlist_ratio seedOf erfc
        token_ids).total_scored = token_ids.length - context_width ∧
    (Statistical.score context_width greenlist_ratio seedOf erfc
        token_ids).green_hits =
      Statistical.dense_hits_spec context_width greenlist_ratio seedOf token_ids ∧
    (Statistical.score context_width greenlist_ratio seedOf erfc
        token_ids).expected =
      ((token_ids.length - context_width : ℕ) : ℝ) * (greenlist_ratio : ℝ) ∧
    (((token_ids.length - context_width : ℕ) : ℝ) * (greenlist_ratio : ℝ) *
        (1 - (greenlist_ratio : ℝ)) = 0 →
      (Statistical.score context_width greenlist_ratio seedOf erfc
        token_ids).z_score = 0) ∧
    (((token_ids.length - context_width : ℕ) : ℝ) * (greenlist_ratio : ℝ) *
        (1 - (greenlist_ratio : ℝ)) ≠ 0 →
      (Statistical.score context_width greenlist_ratio seedOf erfc
        token_ids).z_score =
        ((Statistical.dense_hits_spec context_width greenlist_ratio seedOf
            token_ids : ℝ) -
          ((token_ids.length - context_width : ℕ) : ℝ) * (greenlist_ratio : ℝ)) /
        Real.sqrt (((token_ids.length - context_width : ℕ) : ℝ) *
          (greenlist_ratio : ℝ) * (1 - (greenlist_ratio : ℝ)))) ∧
    (Statistical.score context_width greenlist_ratio seedOf erfc
        token_ids).p_value_one_sided =
      1 / 2 * erfc ((Statistical.score context_width greenlist_ratio seedOf erfc
        token_ids).z_score / Real.sqrt 2) ∧
    (Statistical.score_sparse_watermark token_ids seedOf erfc vocab_size
        context_width greenlist_ratio max_bias_tokens).total_scored =
      token_ids.length - context_width ∧
    (Statistical.score_sparse_watermark token_ids seedOf erfc vocab_size
        context_width greenlist_ratio max_bias_tokens).green_hits =
      Statistical.sparse_hits_spec vocab_size context_width greenlist_ratio
        max_bias_tokens seedOf token_ids ∧
    (Statistical.score_sparse_watermark token_ids seedOf erfc vocab_size
        context_width greenlist_ratio max_bias_tokens).expected =
      ((token_ids.length - context_width : ℕ) : ℝ) *
        (((Statistical.sparse_k vocab_size greenlist_ratio max_bias_tokens : ℚ) /
          (vocab_size : ℚ) : ℚ) : ℝ) ∧
    (((token_ids.length - context_width : ℕ) : ℝ) *
        (((Statistical.sparse_k vocab_size greenlist_ratio max_bias_tokens : ℚ) /
          (vocab_size : ℚ) : ℚ) : ℝ) *
        (1 - (((Statistical.sparse_k vocab_size greenlist_ratio max_bias_tokens : ℚ) /
          (vocab_size : ℚ) : ℚ) : ℝ)) = 0 →
      (Statistical.score_sparse_watermark token_ids seedOf erfc vocab_size
        context_width greenlist_ratio max_bias_tokens).z_score = 0) ∧
    (((token_ids.length - context_width : ℕ) : ℝ) *
        (((Statistical.sparse_k vocab_size greenlist_ratio max_bias_tokens : ℚ) /
          (vocab_size : ℚ) : ℚ) : ℝ) *
        (1 - (((Statistical.sparse_k vocab_size greenlist_ratio max_bias_tokens : ℚ) /
          (vocab_size : ℚ) : ℚ) : ℝ)) ≠ 0 →
      (Statistical.score_sparse_watermark token_ids seedOf erfc vocab_size
        context_width greenlist_ratio max_bias_tokens).z_score =
        ((Statistical.sparse_hits_spec vocab_size context_width greenlist_ratio
            max_bias_tokens seedOf token_ids : ℝ) -
          ((token_ids.length - context_width : ℕ) : ℝ) *
            (((Statistical.sparse_k vocab_size greenlist_ratio max_bias_tokens : ℚ) /
              (vocab_size : ℚ) : ℚ) : ℝ)) /
        Real.sqrt (((token_ids.length - context_width : ℕ) : ℝ) *
          (((Statistical.sparse_k vocab_size greenlist_ratio max_bias_tokens : ℚ) /
            (vocab_size : ℚ) : ℚ) : ℝ) *
          (1 - (((Statistical.sparse_k vocab_size greenlist_ratio max_bias_tokens : ℚ) /
            (vocab_size : ℚ) : ℚ) : ℝ)))) ∧
    (Statistical.score_sparse_watermark token_ids seedOf erfc vocab_size
        context_width greenlist_ratio max_bias_tokens).p_value_one_sided =
      1 / 2 * erfc ((Statistical.score_sparse_watermark token_ids seedOf erfc
        vocab_size context_width greenlist_ratio
        max_bias_tokens).z_score / Real.sqrt 2) := by
  have hnle : ¬ token_ids.length ≤ context_width := not_le.mpr hlen
  have hhits_d : Statistical.dense_hits_spec context_width greenlist_ratio seedOf
      token_ids = ((List.range' context_width
        (token_ids.length - context_width)).filter fun idx =>
          Statistical.token_is_green (token_ids.getD idx 0)
            (seedOf ((token_ids.drop (idx - context_width)).take context_width))
            greenlist_ratio).length := by
    rw [Statistical.dense_hits_spec, Statistical.card_filter_Ico]
  have hhits_s : Statistical.sparse_hits_spec vocab_size context_width greenlist_ratio
      max_bias_tokens seedOf token_ids = ((List.range' context_width
        (token_ids.length - context_width)).filter fun idx =>
          (Statistical.select_sparse_green_ids vocab_size
            (seedOf ((token_ids.drop (idx - context_width)).take context_width))
            greenlist_ratio max_bias_tokens).contains
            (token_ids.getD idx 0)).length := by
    rw [Statistical.sparse_hits_spec, Statistical.card_filter_Ico]
  have hrr0 : (0 : ℝ) ≤ (greenlist_ratio : ℝ) := by exact_mod_cast hr0
  have hrr1 : (0 : ℝ) ≤ 1 - (greenlist_ratio : ℝ) := by
    have : (greenlist_ratio : ℝ) ≤ 1 := by exact_mod_cast hr1
    linarith
  have hpgq0 : (0 : ℚ) ≤ (Statistical.sparse_k vocab_size greenlist_ratio
      max_bias_tokens : ℚ) / (vocab_size : ℚ) := by positivity
  have hpgq1 : (Statistical.sparse_k vocab_size greenlist_ratio max_bias_tokens : ℚ) /
      (vocab_size : ℚ) ≤ 1 := by
    have hVq : (0 : ℚ) < (vocab_size : ℚ) := by exact_mod_cast hV
    rw [div_le_one hVq]
    exact_mod_cast Statistical.sparse_k_le vocab_size greenlist_ratio max_bias_tokens hV
  have hpg0 : (0 : ℝ) ≤ (((Statistical.sparse_k vocab_size greenlist_ratio
      max_bias_tokens : ℚ) / (vocab_size : ℚ) : ℚ) : ℝ) := by exact_mod_cast hpgq0
  have hpg1 : (0 : ℝ) ≤ 1 - (((Statistical.sparse_k vocab_size greenlist_ratio
      max_bias_tokens : ℚ) / (vocab_size : ℚ) : ℚ) : ℝ) := by
    have h1 : (((Statistical.sparse_k vocab_size greenlist_ratio
        max_bias_tokens : ℚ) / (vocab_size : ℚ) : ℚ) : ℝ) ≤ 1 := by exact_mod_cast hpgq1
    linarith
  refine ⟨?_, ?_, ?_, ?_, ?_, ?_, ?_, ?_, ?_, ?_, ?_, ?_⟩
  · simp [Statistical.score, if_neg hnle, List.length_range']
  · rw [hhits_d]
    simp [Statistical.score, if_neg hnle]
  · simp [Statistical.score, if_neg hnle, List.length_range']
  · intro hv
    simp only [Statistical.score, if_neg hnle, List.length_range']
    rw [if_pos hv.le]
  · intro hv
    have hv0 : (0 : ℝ) ≤ ((token_ids.length - context_width : ℕ) : ℝ) *
        (greenlist_ratio : ℝ) * (1 - (greenlist_ratio : ℝ)) := by
      have : (0 : ℝ) ≤ ((token_ids.length - context_width : ℕ) : ℝ) := by positivity
      exact mul_nonneg (mul_nonneg this hrr0) hrr1
    simp only [Statistical.score, if_neg hnle, List.length_range']
    rw [if_neg (not_le.mpr (lt_of_le_of_ne hv0 (Ne.symm hv))), hhits_d]
  · simp [Statistical.score, if_neg hnle]
  · simp [Statistical.score_sparse_watermark, if_neg hnle, List.length_range']
  · rw [hhits_s]
    simp [Statistical.score_sparse_watermark, if_neg hnle]
  · simp [Statistical.score_sparse_watermark, if_neg hnle, List.length_range']
  · intro hv
    simp only [Statistical.score_sparse_watermark, if_neg hnle, List.length_range']
    rw [if_pos hv.le]
  · intro hv
    have hv0 : (0 : ℝ) ≤ ((token_ids.length - context_width : ℕ) : ℝ) *
        (((Statistical.sparse_k vocab_size greenlist_ratio max_bias_tokens : ℚ) /
          (vocab_size : ℚ) : ℚ) : ℝ) *
        (1 - (((Statistical.sparse_k vocab_size greenlist_ratio max_bias_tokens : ℚ) /
          (vocab_size : ℚ) : ℚ) : ℝ)) := by
      have hn0 : (0 : ℝ) ≤ ((token_ids.length - context_width : ℕ) : ℝ) := by positivity
      exact mul_nonneg (mul_nonneg hn0 hpg0) hpg1
    simp only [Statistical.score_sparse_watermark, if_neg hnle, List.length_range']
    rw [if_neg (not_le.mpr (lt_of_le_of_ne hv0 (Ne.symm hv))), hhits_s]
  · simp [Statistical.score_sparse_watermark, if_neg hnle]

/-- C5 witness at `tokens = [0,0,0]`, `context_width = 2`, `ratio = 1/4`,
`vocab_size = 4`, `max_bias_tokens = 2048`: one scored position. -/
theorem scoring_formulas_witness :
    (Statistical.score 2 (1 / 4) (fun _ => 0) (fun _ => 0) [0, 0, 0]).total_scored =
      [0, 0, 0].length - 2 :=
  (scoring_formulas 2 (1 / 4) (fun _ => 0) (fun _ => 0) [0, 0, 0] 4 2048
    (by norm_num) (by norm_num) (by norm_num) (by norm_num)).1

/-- C9: for every token list whose length is at most `context_width`, both
scorers return the fixed sentinel `StatisticalScore(0, 0, 0.0, 0.0, 1.0)` —
with one-sided p-value exactly `1.0` — and the result does not depend on the
derived key (the seed function is arbitrary), as no seed derivation occurs. -/
theorem short_input_sentinel (context_width : ℕ) (greenlist_ratio : ℚ)
    (seedOf seedOf2 : List ℕ → ℕ) (erfc erfc2 : ℝ → ℝ) (token_ids : List ℕ)
    (vocab_size max_bias_tokens : ℕ)
    (hlen : token_ids.length ≤ context_width) :
    Statistical.score context_width greenlist_ratio seedOf erfc token_ids =
      ⟨0, 0, 0, 0, 1⟩ ∧
    Statistical.score_sparse_watermark token_ids seedOf2 erfc2 vocab_size
      context_width greenlist_ratio max_bias_tokens = ⟨0, 0, 0, 0, 1⟩ := by
  constructor
  · rw [Statistical.score, if_pos hlen]
  · rw [Statistical.score_sparse_watermark, if_pos hlen]

/-- C9 witness: the empty token list with `context_width = 2`. -/
theorem short_input_sentinel_witness :
    Statistical.score 2 (1 / 4) (fun _ => 0) (fun _ => 0) [] = ⟨0, 0, 0, 0, 1⟩ ∧
    Statistical.score_sparse_watermark [] (fun _ => 1) (fun _ => 0) 4 2 (1 / 4) 2048 =
      ⟨0, 0, 0, 0, 1⟩ :=
  short_input_sentinel 2 (1 / 4) (fun _ => 0) (fun _ => 1) (fun _ => 0) (fun _ => 0)
    [] 4 2048 (by norm_num)

/-- C6 (code exhibit): a correctly signed opt-out token whose JSON payload
is the bare scalar `1` (payload bytes `[49]`, the string `"1"`) passes the
split, decode, signature and JSON-parse steps, then reaches
`int(parsed.get("exp", 0))`, which sits outside every `try` and raises
`AttributeError` on the non-dict value — the embedding returns
`Except.error` instead of the `(False, reason)` pair the claim requires.
The HMAC is instantiated with a concrete stand-in; any function whose value
on `(secret, [49])` equals the token's signature bytes takes the same path. -/
theorem verify_opt_out_token_raises_exhibit :
    Policy.verify_opt_out_token (fun _ _ => [0])
      (fun b => if b = [49] then some (.num 1) else none)
      (some (Policy.b64url_encode [49] ++ '.' :: Policy.b64url_encode [0])) [7] 0 =
      .error "AttributeError: object has no attribute get" := by
  rfl

/-- C7 (code exhibit): with a single stored company row that is inactive,
`verify_signature_by_address` still returns that company's credential: the
direct lookup filters `active = 1` and misses, but the case-insensitive
fallback iterates `db.list_companies`, whose SQL has no `active` filter.
The claim (and the module's own docstring) require `none` here. -/
theorem verify_signature_by_address_inactive_exhibit (str_lower : String → String) :
    Registry.verify_signature_by_address str_lower
      [{ issuer_id := 100, name := "acme", eth_address := "0xAB", active := false }]
      (some "0xAB") =
      some { issuer_id := 100, name := "acme", eth_address := "0xAB" } := by
  simp [Registry.verify_signature_by_address, Registry.get_company_by_address, List.find?]

/-- C8: a token produced by `make_opt_out_token(payload, secret, ttl)` at
instant `now` — for a payload dict carrying neither `"iat"` nor `"exp"` —
carries `exp = now + ttl`, verifies as `(true, "ok")` under the same secret
while `exp` has not passed, fails with a different secret (whose HMAC over
the body differs), and fails once `exp < now`.  `json.dumps`/`json.loads`
and HMAC-SHA256 are uninterpreted; the parse round trip over the canonical
dump is a hypothesis discharged by any faithful JSON model. -/
theorem opt_out_round_trip
    (hmac_sha256 : List ℕ → List ℕ → List ℕ)
    (json_dumps_canonical : List (List Char × Policy.JsonVal) → List ℕ)
    (json_loads : List ℕ → Option Policy.JsonVal)
    (payload : List (List Char × Policy.JsonVal)) (secret secret2 : List ℕ)
    (ttl_seconds now now2 : ℕ)
    (hiat : payload.lookup Policy.iat_key = none)
    (hexp : payload.lookup Policy.exp_key = none)
    (httl : 0 < ttl_seconds)
    (hloads : json_loads (json_dumps_canonical
        (Policy.opt_out_body payload now ttl_seconds)) =
      some (.obj (Policy.opt_out_body payload now ttl_seconds)))
    (hraw : ∀ b ∈ json_dumps_canonical (Policy.opt_out_body payload now ttl_seconds),
      b < 256)
    (hsig : ∀ b ∈ hmac_sha256 secret
        (json_dumps_canonical (Policy.opt_out_body payload now ttl_seconds)), b < 256) :
    (Policy.opt_out_body payload now ttl_seconds).lookup Policy.exp_key =
      some (.num (now + ttl_seconds)) ∧
    (now2 ≤ now + ttl_seconds →
      Policy.verify_opt_out_token hmac_sha256 json_loads
        (some (Policy.make_opt_out_token hmac_sha256 json_dumps_canonical payload
          secret ttl_seconds now)) secret now2 = .ok (true, "ok")) ∧
    (hmac_sha256 secret2 (json_dumps_canonical
        (Policy.opt_out_body payload now ttl_seconds)) ≠
      hmac_sha256 secret (json_dumps_canonical
        (Policy.opt_out_body payload now ttl_seconds)) →
      Policy.verify_opt_out_token hmac_sha256 json_loads
        (some (Policy.make_opt_out_token hmac_sha256 json_dumps_canonical payload
          secret ttl_seconds now)) secret2 now2 = .ok (false, "invalid signature")) ∧
    (now + ttl_seconds < now2 →
      Policy.verify_opt_out_token hmac_sha256 json_loads
        (some (Policy.make_opt_out_token hmac_sha256 json_dumps_canonical payload
          secret ttl_seconds now)) secret now2 = .ok (false, "expired token")) := by
  have hbody := Policy.opt_out_body_lookup_exp payload now ttl_seconds hiat hexp
  refine ⟨hbody, ?_, ?_, ?_⟩
  · intro hc
    simp only [Policy.make_opt_out_token]
    rw [Policy.verify_encoded hmac_sha256 json_loads _ _ secret now2 hraw hsig,
      if_pos rfl, hloads]
    simp only [Policy.verify_parsed, hbody, Option.getD_some, Policy.py_int]
    rw [if_neg (by exact_mod_cast not_lt.mpr hc)]
  · intro hc
    simp only [Policy.make_opt_out_token]
    rw [Policy.verify_encoded hmac_sha256 json_loads _ _ secret2 now2 hraw hsig,
      if_neg (fun h => hc h.symm)]
  · intro hc
    simp only [Policy.make_opt_out_token]
    rw [Policy.verify_encoded hmac_sha256 json_loads _ _ secret now2 hraw hsig,
      if_pos rfl, hloads]
    simp only [Policy.verify_parsed, hbody, Option.getD_some, Policy.py_int]
    rw [if_pos (by exact_mod_cast hc)]

/-- C8 witness: empty payload, `secret = [1]`, `ttl = 30`, made at `now = 5`
and verified at `now2 = 10`, with concrete stand-ins for HMAC and JSON. -/
theorem opt_out_round_trip_witness :
    Policy.verify_opt_out_token (fun s _ => s)
      (fun b => if b = [107] then some (.obj (Policy.opt_out_body [] 5 30)) else none)
      (some (Policy.make_opt_out_token (fun s _ => s) (fun _ => [107]) [] [1] 30 5))
      [1] 10 = .ok (true, "ok") := by
  have h := opt_out_round_trip (fun s _ => s) (fun _ => [107])
    (fun b => if b = [107] then some (.obj (Policy.opt_out_body [] 5 30)) else none)
    [] [1] [2] 30 5 10 rfl rfl (by norm_num) (by simp)
    (by intro b hb; rw [List.mem_singleton] at hb; omega)
    (by intro b hb; rw [List.mem_singleton] at hb; omega)
  exact h.2.1 (by norm_num)

/-- C10: a signed token whose HMAC verifies but whose JSON object payload
lacks an `"exp"` field never verifies: the missing `exp` defaults to `0`,
which is below any positive clock value, so the result is
`(false, "expired token")`. -/
theorem missing_exp_rejected
    (hmac_sha256 : List ℕ → List ℕ → List ℕ)
    (json_loads : List ℕ → Option Policy.JsonVal)
    (payload_bytes sig_bytes secret : List ℕ)
    (fields : List (List Char × Policy.JsonVal)) (now : ℕ)
    (hraw : ∀ b ∈ payload_bytes, b < 256) (hsig : ∀ b ∈ sig_bytes, b < 256)
    (hmac_ok : sig_bytes = hmac_sha256 secret payload_bytes)
    (hparse : json_loads payload_bytes = some (.obj fields))
    (hnoexp : fields.lookup Policy.exp_key = none)
    (hnow : 1 ≤ now) :
    Policy.verify_opt_out_token hmac_sha256 json_loads
      (some (Policy.b64url_encode payload_bytes ++ '.' ::
        Policy.b64url_encode sig_bytes)) secret now = .ok (false, "expired token") := by
  rw [Policy.verify_encoded hmac_sha256 json_loads _ _ secret now hraw hsig,
    if_pos hmac_ok, hparse]
  simp only [Policy.verify_parsed, hnoexp, Option.getD_none, Policy.py_int]
  rw [if_pos (by exact_mod_cast hnow)]

/-- C10 witness: payload bytes `[107]` parsing to the empty JSON object,
matching signature, clock at `now = 1`. -/
theorem missing_exp_rejected_witness :
    Policy.verify_opt_out_token (fun _ _ => [1])
      (fun b => if b = [107] then some (.obj []) else none)
      (some (Policy.b64url_encode [107] ++ '.' :: Policy.b64url_encode [1])) [9] 1 =
      .ok (false, "expired token") :=
  missing_exp_rejected (fun _ _ => [1])
    (fun b => if b = [107] then some (.obj []) else none) [107] [1] [9] [] 1
    (by intro b hb; rw [List.mem_singleton] at hb; omega)
    (by intro b hb; rw [List.mem_singleton] at hb; omega)
    rfl (by simp) rfl (by norm_num)

